import Mathlib

/-!
Shallow embedding of `src/Node.py`: the factor-graph message-passing node
classes (`Node`, `Variable`, `Factor`) of the data-subset-selection engine.

Modelling conventions:

* Messages are rationals (`ℚ`), embedding the exact arithmetic the update
  formulas denote.
* A node object is a `NodeState` record; the Python object reference used as
  a neighbor entry is modelled by the node's id (`nid`), since `list.index`
  resolves a sender by object identity.
* Indexed reads of the parallel message lists are modelled with `List.getD`
  (default `0`) and indexed writes with `List.set`; both agree with the
  Python `l[i]` accesses whenever the index is in range, which is guaranteed
  by the length invariant `len(neighbors) == len(in_msgs) == len(out_msgs)
  == len(prev_out_msgs)` maintained by `addNeighbors`.
* Code paths on which Python raises inside `Node.py` itself — `list.index`
  on an absent sender, `neighbors[0]` on an empty neighbor list, and
  `max([])` — are modelled by `Option`, `none` meaning the call raises
  instead of producing a value.
* A Factor reads only `i_index`, `j_index` and `in_msgs` of its `Variable`
  neighbors, so a Factor's neighbor entries are modelled as `VarView`
  records holding exactly those fields.
-/

/-- The valid node types: `VALID_NODES = {'X', 'IJ', 'IC', 'JF'}`.
`X` is the Variable type; `IJ` (pairwise link), `JF` (row uniqueness) and
`IC` (column budget) are the Factor roles. -/
inductive NodeType where
  | X
  | IJ
  | IC
  | JF
deriving Repr, DecidableEq

/-- `Node.epsilon = 10 ** (-4)`, the convergence tolerance. -/
def epsilon : ℚ := 1 / 10000

/-- The state of a `Node` object: type tag, id, damping factor, and the four
parallel per-edge lists. -/
structure NodeState where
  nodetype : NodeType
  nid : Nat
  damp : ℚ
  neighbors : List Nat
  in_msgs : List ℚ
  out_msgs : List ℚ
  prev_out_msgs : List ℚ
deriving Repr, DecidableEq

/-- `Node.__init__`: all four per-edge lists start empty. -/
def Node.init (t : NodeType) (nid : Nat) (damp : ℚ) : NodeState :=
  ⟨t, nid, damp, [], [], [], []⟩

/-- `Node.addNeighbors(node)`: appends the other node to this node's neighbor
list and vice versa, and appends a `0` slot to all message lists of both
endpoints. -/
def addNeighbors (self node : NodeState) : NodeState × NodeState :=
  ({ self with
      neighbors := self.neighbors ++ [node.nid]
      in_msgs := self.in_msgs ++ [0]
      out_msgs := self.out_msgs ++ [0]
      prev_out_msgs := self.prev_out_msgs ++ [0] },
   { node with
      neighbors := node.neighbors ++ [self.nid]
      in_msgs := node.in_msgs ++ [0]
      out_msgs := node.out_msgs ++ [0]
      prev_out_msgs := node.prev_out_msgs ++ [0] })

/-- Python's `list.index`: the index of the first occurrence, `none` when the
element is absent (where `list.index` raises `ValueError`). -/
def indexOfNode (sender : Nat) : List Nat → Option Nat
  | [] => none
  | x :: xs => if x = sender then some 0 else (indexOfNode sender xs).map (· + 1)

/-- `Node.receiveMsg(sender, msg)`: locate the sender in the neighbor list
(`none` models the `ValueError` raised by `list.index`, before any write
happens) and overwrite the corresponding `in_msgs` slot. -/
def receiveMsg (self : NodeState) (sender : Nat) (msg : ℚ) : Option NodeState :=
  match indexOfNode sender self.neighbors with
  | none => none
  | some index => some { self with in_msgs := self.in_msgs.set index msg }

/-- `Node.sendMsg()`: the fan-out performed by a broadcast, as the list of
`(receiver id, message)` deliveries; each delivery is a `receiveMsg` call on
the receiver. -/
def sendMsg (self : NodeState) : List (Nat × ℚ) :=
  (List.range self.neighbors.length).map fun i =>
    (self.neighbors.getD i 0, self.out_msgs.getD i 0)

/-- `Node.checkConvergence()`: `False` as soon as some index has
`|out_msgs[i] - prev_out_msgs[i]| > epsilon`, else `True`. -/
def checkConvergence (self : NodeState) : Bool :=
  (List.range self.out_msgs.length).all fun i =>
    !(decide (|self.out_msgs.getD i 0 - self.prev_out_msgs.getD i 0| > epsilon))

/-- The update loop shared by every `message` method: `for i in range(n):
out_msgs[i] = f(i)`, a left fold of in-place writes over the index range. -/
def setLoop (f : Nat → ℚ) (n : Nat) (out : List ℚ) : List ℚ :=
  (List.range n).foldl (fun o i => o.set i (f i)) out

/-- `Variable.message()`: snapshot `out_msgs` into `prev_out_msgs` (the Python
`out_msgs[:]` copies the list, so the snapshot is independent of the later
writes), then for each index `i` write
`damp * prev_out_msgs[i] + (1 - damp) * np.sum(in_msgs with index i deleted)`.
Both `prev_out_msgs` and the fresh `in_msgs[:]` copy taken each iteration are
the original per-call lists, so every iteration reads unmutated data. -/
def Variable.message (s : NodeState) : NodeState :=
  { s with
    prev_out_msgs := s.out_msgs
    out_msgs := setLoop
      (fun i => s.damp * s.out_msgs.getD i 0 +
        (1 - s.damp) * (s.in_msgs.eraseIdx i).sum)
      s.in_msgs.length s.out_msgs }

/-- The fields of a neighboring `Variable` object that `Factor.message` reads:
`i_index`, `j_index` and the neighbor's own `in_msgs` list. -/
structure VarView where
  i_index : Nat
  j_index : Nat
  in_msgs : List ℚ
deriving Repr, DecidableEq

instance : Inhabited VarView := ⟨⟨0, 0, []⟩⟩

/-- The state of a `Factor` object: the `Node` fields plus the shared
dissimilarity matrix (read through `dismatrix i j`), the regularization
scalar, and `VarView`s of its Variable neighbors. -/
structure FactorState where
  nodetype : NodeType
  nid : Nat
  damp : ℚ
  reg : ℚ
  dismatrix : Nat → Nat → ℚ
  neighbors : List VarView
  in_msgs : List ℚ
  out_msgs : List ℚ
  prev_out_msgs : List ℚ

/-- `Factor.message()`: snapshot `out_msgs` into `prev_out_msgs`, then
dispatch on the node type.

* `'IJ'` (pairwise link): reads `neighbors[0]` (`none` when the neighbor list
  is empty, modelling the `IndexError`) and writes
  `out_msgs[0] = damp * prev[0] + (1 - damp) * -dismatrix[i0, j0]`.
* `'JF'` (row uniqueness): `eta[k] = neighbors[k].in_msgs[1] -
  dismatrix[k, j]` with `j = neighbors[0].j_index`; each iteration copies
  `eta` and deletes index `i` with the in-place `del`, then writes
  `damp * prev[i] + (1 - damp) * -max(temp_eta)`. With fewer than 2
  neighbors `temp_eta` is empty at the first iteration, so `max([])` raises
  (`none`); under the guard the `Option.getD 0` below always unwraps the
  actual maximum.
* `else` (reached with `'IC'`, column budget): `dis_eta[k] =
  neighbors[k].in_msgs[2] - dismatrix[i, k]` with `i = neighbors[0].i_index`.
  Each iteration sets `temp_dis_eta = dis_eta[:]` and then calls
  `np.delete(temp_dis_eta, j, 0)`, which returns a fresh array that is
  discarded and does NOT modify `temp_dis_eta`; so the sum below ranges over
  every entry of `dis_eta`, including index `j`, and the written value is
  `damp * prev[j] + (1 - damp) * min(0, -reg + sum(max(dis_eta[k], 0)))`. -/
def Factor.message (s : FactorState) : Option FactorState :=
  match s.nodetype with
  | NodeType.IJ =>
    match s.neighbors with
    | [] => none
    | v :: _ =>
      let sigma := s.dismatrix v.i_index v.j_index
      some { s with
        prev_out_msgs := s.out_msgs
        out_msgs := s.out_msgs.set 0
          (s.damp * s.out_msgs.getD 0 0 + (1 - s.damp) * (-sigma)) }
  | NodeType.JF =>
    match s.neighbors with
    | [] => none
    | v0 :: _ =>
      let j := v0.j_index
      let eta := (List.range s.neighbors.length).map
        (fun k => (s.neighbors.getD k default).in_msgs.getD 1 0 - s.dismatrix k j)
      if s.neighbors.length < 2 then none
      else
        some { s with
          prev_out_msgs := s.out_msgs
          out_msgs := setLoop
            (fun i => s.damp * s.out_msgs.getD i 0 +
              (1 - s.damp) * (-((eta.eraseIdx i).max?.getD 0)))
            s.neighbors.length s.out_msgs }
  | _ =>
    match s.neighbors with
    | [] => none
    | v0 :: _ =>
      let i := v0.i_index
      let dis_eta := (List.range s.neighbors.length).map
        (fun k => (s.neighbors.getD k default).in_msgs.getD 2 0 - s.dismatrix i k)
      some { s with
        prev_out_msgs := s.out_msgs
        out_msgs := setLoop
          (fun jj =>
            let temp_dis_eta := dis_eta
            let sum_value := (temp_dis_eta.map (fun x => max x 0)).sum
            let alpha := min 0 (-s.reg + sum_value)
            s.damp * s.out_msgs.getD jj 0 + (1 - s.damp) * alpha)
          s.neighbors.length s.out_msgs }

/-- The length invariant the four parallel lists of a `Node` satisfy. -/
def nodeInv (s : NodeState) : Prop :=
  s.neighbors.length = s.in_msgs.length ∧
  s.neighbors.length = s.out_msgs.length ∧
  s.neighbors.length = s.prev_out_msgs.length

/-- The length invariant for a `Factor`'s parallel lists. -/
def factorInv (s : FactorState) : Prop :=
  s.neighbors.length = s.in_msgs.length ∧
  s.neighbors.length = s.out_msgs.length ∧
  s.neighbors.length = s.prev_out_msgs.length

/-- Modelled from the spec: the column-budget leave-one-out value
`min(0, -reg + sum(max(dis_eta[k], 0) for k != j))`, used to compare the
code's `'IC'` branch against the specified update. -/
def specColumnBudgetAlpha (reg : ℚ) (dis_eta : List ℚ) (j : Nat) : ℚ :=
  min 0 (-reg + ((dis_eta.eraseIdx j).map (fun x => max x 0)).sum)

/-- The mathematical leave-one-out maximum `max(f k for k < n, k != i)`
(over the nonempty index set), the value the row-uniqueness update is
specified to negate. -/
def looMax (n i : Nat) (f : Nat → ℚ) : ℚ :=
  if h : ((Finset.range n).erase i).Nonempty then ((Finset.range n).erase i).sup' h f
  else 0

/-- The `eta` entry the `'JF'` branch computes for neighbor `k`: the
neighbor's incoming value at the pairwise-link slot (`in_msgs[1]`) minus
`dismatrix[k, j]`, with `j` the shared column index read from
`neighbors[0]`. -/
def etaF (s : FactorState) (k : Nat) : ℚ :=
  (s.neighbors.getD k default).in_msgs.getD 1 0 -
    s.dismatrix k (s.neighbors.getD 0 default).j_index

theorem setLoop_zero (f : Nat → ℚ) (out : List ℚ) : setLoop f 0 out = out := rfl

theorem setLoop_succ (f : Nat → ℚ) (n : Nat) (out : List ℚ) :
    setLoop f (n + 1) out = (setLoop f n out).set n (f n) := by
  unfold setLoop
  rw [List.range_succ, List.foldl_append]
  rfl

theorem setLoop_length (f : Nat → ℚ) (n : Nat) (out : List ℚ) :
    (setLoop f n out).length = out.length := by
  induction n with
  | zero => rfl
  | succ n ih => rw [setLoop_succ, List.length_set, ih]

theorem setLoop_getElem? (f : Nat → ℚ) (n : Nat) (out : List ℚ) (j : Nat) :
    (setLoop f n out)[j]? = if j < n ∧ j < out.length then some (f j) else out[j]? := by
  induction n with
  | zero => simp [setLoop_zero]
  | succ n ih =>
    rw [setLoop_succ, List.getElem?_set, setLoop_length, ih]
    by_cases h : n = j
    · subst h
      rw [if_pos rfl]
      by_cases ho : n < out.length
      · rw [if_pos ho, if_pos ⟨Nat.lt_succ_self n, ho⟩]
      · rw [if_neg ho, if_neg (fun hc => ho hc.2),
          List.getElem?_eq_none (Nat.le_of_not_lt ho)]
    · rw [if_neg h]
      by_cases hj : j < n ∧ j < out.length
      · rw [if_pos hj, if_pos ⟨Nat.lt_succ_of_lt hj.1, hj.2⟩]
      · rw [if_neg hj, if_neg (fun hc => hj ⟨by omega, hc.2⟩)]

theorem set_getD_self (l : List ℚ) (i : Nat) (hi : i < l.length) :
    l.set i (l.getD i 0) = l := by
  apply List.ext_getElem?
  intro j
  rw [List.getElem?_set]
  by_cases h : i = j
  · subst h
    simp [hi, List.getD_eq_getElem?_getD, List.getElem?_eq_getElem hi]
  · simp [h]

theorem sum_eraseIdx (l : List ℚ) (i : Nat) (hi : i < l.length) :
    (l.eraseIdx i).sum = l.sum - l.getD i 0 := by
  induction l generalizing i with
  | nil => simp at hi
  | cons a l ih =>
    cases i with
    | zero => simp [List.eraseIdx]
    | succ i =>
      simp only [List.eraseIdx, List.sum_cons]
      rw [ih i (by simpa using hi)]
      simp [List.getD_cons_succ]
      ring

theorem indexOfNode_eq_none_iff (x : Nat) (l : List Nat) :
    indexOfNode x l = none ↔ x ∉ l := by
  induction l with
  | nil => simp [indexOfNode]
  | cons a l ih =>
    by_cases h : a = x
    · subst h
      simp [indexOfNode]
    · simp [indexOfNode, h, Option.map_eq_none', ih, Ne.symm h]

theorem indexOfNode_some (x : Nat) (l : List Nat) (i : Nat)
    (h : indexOfNode x l = some i) :
    l[i]? = some x ∧ ∀ j, j < i → l[j]? ≠ some x := by
  induction l generalizing i with
  | nil => simp [indexOfNode] at h
  | cons a l ih =>
    by_cases ha : a = x
    · subst ha
      simp [indexOfNode] at h
      subst h
      simp
    · simp only [indexOfNode, if_neg ha, Option.map_eq_some'] at h
      obtain ⟨i', hi', rfl⟩ := h
      obtain ⟨h1, h2⟩ := ih i' hi'
      refine ⟨by simpa using h1, ?_⟩
      intro j hj
      cases j with
      | zero => simp [ha]
      | succ j =>
        simp only [List.getElem?_cons_succ]
        exact h2 j (Nat.lt_of_succ_lt_succ hj)

instance : Std.Antisymm ((· ≤ ·) : ℚ → ℚ → Prop) := ⟨fun h h' => le_antisymm h h'⟩

theorem rat_max?_eq_some_iff (l : List ℚ) (a : ℚ) :
    l.max? = some a ↔ a ∈ l ∧ ∀ b ∈ l, b ≤ a :=
  List.max?_eq_some_iff (fun a => le_refl a) (fun a b => max_choice a b)
    (fun _ _ _ => max_le_iff)

theorem eraseIdx_max?_eq_looMax (n i : Nat) (h2 : 2 ≤ n) (f : Nat → ℚ) :
    (((List.range n).map f).eraseIdx i).max? = some (looMax n i f) := by
  have hne : ((Finset.range n).erase i).Nonempty := by
    rcases Nat.lt_or_ge i 1 with h | h
    · refine ⟨1, Finset.mem_erase.2 ⟨by omega, Finset.mem_range.2 (by omega)⟩⟩
    · refine ⟨0, Finset.mem_erase.2 ⟨by omega, Finset.mem_range.2 (by omega)⟩⟩
  rw [looMax, dif_pos hne, rat_max?_eq_some_iff]
  obtain ⟨k, hk, hsup⟩ := Finset.exists_mem_eq_sup' hne f
  have hk' := Finset.mem_erase.1 hk
  constructor
  · rw [hsup, List.mem_eraseIdx_iff_getElem?]
    refine ⟨k, hk'.1, ?_⟩
    rw [List.getElem?_map, List.getElem?_range (Finset.mem_range.1 hk'.2)]
    rfl
  · intro b hb
    rw [List.mem_eraseIdx_iff_getElem?] at hb
    obtain ⟨k', hk'i, hbk⟩ := hb
    rw [List.getElem?_map] at hbk
    have hk'n : k' < n := by
      by_contra hcon
      rw [List.getElem?_eq_none (by simpa using Nat.le_of_not_lt hcon)] at hbk
      simp at hbk
    rw [List.getElem?_range hk'n] at hbk
    simp only [Option.map_some', Option.some.injEq] at hbk
    exact hbk ▸ Finset.le_sup' f (Finset.mem_erase.2 ⟨hk'i, Finset.mem_range.2 hk'n⟩)

theorem setLoop_congr (f g : Nat → ℚ) (n : Nat) (out : List ℚ)
    (h : ∀ i, i < n → f i = g i) : setLoop f n out = setLoop g n out := by
  apply List.ext_getElem?
  intro j
  rw [setLoop_getElem?, setLoop_getElem?]
  by_cases hc : j < n ∧ j < out.length
  · rw [if_pos hc, if_pos hc, h j hc.1]
  · rw [if_neg hc, if_neg hc]

theorem set_getD_self' (l : List ℚ) (i : Nat) : l.set i (l.getD i 0) = l := by
  by_cases h : i < l.length
  · exact set_getD_self l i h
  · rw [List.set_eq_of_length_le (Nat.le_of_not_lt h)]

theorem setLoop_damp_one (g : Nat → ℚ) (n : Nat) (out : List ℚ) :
    setLoop (fun i => 1 * out.getD i 0 + (1 - 1) * g i) n out = out := by
  apply List.ext_getElem?
  intro j
  rw [setLoop_getElem?]
  by_cases h : j < n ∧ j < out.length
  · rw [if_pos h, List.getD_eq_getElem?_getD, List.getElem?_eq_getElem h.2]
    norm_num
  · rw [if_neg h]

theorem factor_message_some (s s' : FactorState) (h : Factor.message s = some s') :
    ∃ out', s' = { s with prev_out_msgs := s.out_msgs, out_msgs := out' } ∧
      out'.length = s.out_msgs.length ∧ (s.damp = 1 → out' = s.out_msgs) := by
  obtain ⟨t, nid, damp, reg, dis, nbrs, inm, outm, prevm⟩ := s
  cases t with
  | IJ =>
    cases nbrs with
    | nil => simp [Factor.message] at h
    | cons v rest =>
      simp only [Factor.message] at h
      obtain rfl := Option.some.inj h
      refine ⟨_, rfl, by simp, ?_⟩
      intro hd
      subst hd
      have e : (1 : ℚ) * outm.getD 0 0 + (1 - 1) * -(dis v.i_index v.j_index) =
          outm.getD 0 0 := by ring
      simp only [e, set_getD_self']
  | JF =>
    cases nbrs with
    | nil => simp [Factor.message] at h
    | cons v0 rest =>
      cases rest with
      | nil => simp [Factor.message] at h
      | cons v1 rest' =>
        simp only [Factor.message] at h
        rw [if_neg (by simp only [List.length_cons]; omega)] at h
        obtain rfl := Option.some.inj h
        refine ⟨_, rfl, setLoop_length _ _ _, ?_⟩
        intro hd
        subst hd
        exact setLoop_damp_one _ _ _
  | X =>
    cases nbrs with
    | nil => simp [Factor.message] at h
    | cons v rest =>
      simp only [Factor.message] at h
      obtain rfl := Option.some.inj h
      refine ⟨_, rfl, setLoop_length _ _ _, ?_⟩
      intro hd
      subst hd
      exact setLoop_damp_one _ _ _
  | IC =>
    cases nbrs with
    | nil => simp [Factor.message] at h
    | cons v rest =>
      simp only [Factor.message] at h
      obtain rfl := Option.some.inj h
      refine ⟨_, rfl, setLoop_length _ _ _, ?_⟩
      intro hd
      subst hd
      exact setLoop_damp_one _ _ _

/-- C2: `Variable.message` snapshots `out_msgs` into `prev_out_msgs` and sets
each `out_msgs[i]` to `damp * prev_out_msgs[i] + (1 - damp) * S` with `S` the
sum of `in_msgs` over all indices except `i` (total sum minus the `i`-th
entry); with `in_msgs = [2, -1, 3]` and `damp = 0` the result is
`[2, 5, 1]`. -/
theorem variable_message_leave_one_out :
    (∀ s : NodeState,
      Variable.message s =
        { s with
          prev_out_msgs := s.out_msgs
          out_msgs := setLoop
            (fun i => s.damp * s.out_msgs.getD i 0 +
              (1 - s.damp) * (s.in_msgs.sum - s.in_msgs.getD i 0))
            s.in_msgs.length s.out_msgs }) ∧
    (Variable.message
        ⟨NodeType.X, 0, 0, [1, 2, 3], [2, -1, 3], [0, 0, 0], [0, 0, 0]⟩).out_msgs =
      [2, 5, 1] := by
  constructor
  · intro s
    obtain ⟨t, nid, damp, nbrs, inm, outm, prevm⟩ := s
    simp only [Variable.message, NodeState.mk.injEq, true_and]
    refine ⟨?_, trivial⟩
    apply setLoop_congr
    intro i hi
    rw [sum_eraseIdx inm i hi]
  · simp [Variable.message, setLoop, List.range_succ]
    norm_num

/-- C9: for a pairwise-link (`'IJ'`) Factor with exactly one neighbor, the
Variable for pair `(i, j)`, `Factor.message` writes
`out_msgs[0] = damp * prev_out_msgs[0] + (1 - damp) * -dissimilarity[i, j]`
after snapshotting `prev_out_msgs`; with `dissimilarity[i, j] = 4` and
`damp = 0`, `out_msgs` becomes `[-4]`. -/
theorem pairwise_link_message :
    (∀ (nid : Nat) (damp reg : ℚ) (dis : Nat → Nat → ℚ) (v : VarView)
        (inm outm prevm : List ℚ),
      Factor.message ⟨NodeType.IJ, nid, damp, reg, dis, [v], inm, outm, prevm⟩ =
        some ⟨NodeType.IJ, nid, damp, reg, dis, [v], inm,
          outm.set 0
            (damp * outm.getD 0 0 + (1 - damp) * (-(dis v.i_index v.j_index))),
          outm⟩) ∧
    ((Factor.message
        ⟨NodeType.IJ, 0, 0, 0, (fun _ _ => 4), [⟨0, 0, []⟩], [0], [0], [0]⟩).map
        (fun t => t.out_msgs) = some [-4]) := by
  constructor
  · intro nid damp reg dis v inm outm prevm
    rfl
  · simp [Factor.message]

/-- C4 counterexample: a column-budget (`'IC'`) Factor with exactly one
neighbor does NOT fail on its first `message()` call — it produces a value
(the empty leave-one-out reduction never happens: `np.delete`'s result is
discarded and `np.sum` of the remaining array is well defined). -/
theorem columnBudget_single_neighbor_no_failure :
    (Factor.message
      ⟨NodeType.IC, 0, 0, 1, (fun _ _ => 0), [⟨0, 0, [0, 0, 5]⟩],
        [0], [0], [0]⟩).isSome = true := rfl

/-- C4 amended: a row-uniqueness (`'JF'`) Factor with fewer than 2 neighbors
fails fatally on the first `message()` call (`neighbors[0]` raises on an
empty list, `max([])` raises with one neighbor), and a column-budget
(`'IC'`) Factor with zero neighbors fails fatally (`neighbors[0]`); but a
column-budget Factor with exactly one neighbor produces a value instead of
failing. -/
theorem malformed_topology_behavior :
    (∀ (nid : Nat) (damp reg : ℚ) (dis : Nat → Nat → ℚ) (inm outm prevm : List ℚ),
      Factor.message ⟨NodeType.JF, nid, damp, reg, dis, [], inm, outm, prevm⟩ = none) ∧
    (∀ (nid : Nat) (damp reg : ℚ) (dis : Nat → Nat → ℚ) (v : VarView)
        (inm outm prevm : List ℚ),
      Factor.message ⟨NodeType.JF, nid, damp, reg, dis, [v], inm, outm, prevm⟩ = none) ∧
    (∀ (nid : Nat) (damp reg : ℚ) (dis : Nat → Nat → ℚ) (inm outm prevm : List ℚ),
      Factor.message ⟨NodeType.IC, nid, damp, reg, dis, [], inm, outm, prevm⟩ = none) ∧
    (∀ (nid : Nat) (damp reg : ℚ) (dis : Nat → Nat → ℚ) (v : VarView)
        (inm outm prevm : List ℚ),
      (Factor.message ⟨NodeType.IC, nid, damp, reg, dis, [v], inm, outm, prevm⟩).isSome =
        true) := by
  refine ⟨fun _ _ _ _ _ _ _ => rfl, fun _ _ _ _ _ _ _ _ => rfl,
    fun _ _ _ _ _ _ _ => rfl, fun _ _ _ _ _ _ _ _ => rfl⟩

/-- The `dis_eta` entry the `'IC'` branch computes for neighbor `k`: the
neighbor's incoming value at the third edge slot (`in_msgs[2]`) minus
`dismatrix[i, k]`, with `i` the shared row index read from `neighbors[0]`. -/
def disEtaF (s : FactorState) (k : Nat) : ℚ :=
  (s.neighbors.getD k default).in_msgs.getD 2 0 -
    s.dismatrix (s.neighbors.getD 0 default).i_index k

/-- A column-budget Factor exhibiting the discarded `np.delete`: two
neighbors sharing row index 0, both with `in_msgs[2] = 5`, zero
dissimilarity row, `reg = 10`, `damp = 0`. -/
def icBug : FactorState :=
  ⟨NodeType.IC, 0, 0, 10, (fun _ _ => 0),
    [⟨0, 0, [0, 0, 5]⟩, ⟨0, 1, [0, 0, 5]⟩], [0, 0], [0, 0], [0, 0]⟩

/-- C1 (code bug): on `icBug` the per-round `dis_eta` is `[5, 5]`, and the
code writes `out_msgs = [0, 0]` — `min(0, -10 + (5 + 5))` — because the
result of `np.delete(temp_dis_eta, j, 0)` is discarded, so the `k == j` term
stays in the sum; the specified leave-one-out value
`min(0, -reg + sum(max(dis_eta[k], 0) for k != j))` is `-5` at both targets,
and `0 ≠ -5`. -/
theorem columnBudget_sum_keeps_target_term :
    ([disEtaF icBug 0, disEtaF icBug 1] = [5, 5]) ∧
    ((Factor.message icBug).map (fun t => t.out_msgs) = some [0, 0]) ∧
    (specColumnBudgetAlpha icBug.reg [5, 5] 0 = -5) ∧
    (specColumnBudgetAlpha icBug.reg [5, 5] 1 = -5) ∧
    ((0 : ℚ) ≠ -5) := by
  refine ⟨?_, ?_, ?_, ?_, by norm_num⟩
  · simp [disEtaF, icBug]
  · simp [Factor.message, icBug, setLoop, List.range_succ]
    norm_num
  · simp [specColumnBudgetAlpha, icBug]
    norm_num
  · simp [specColumnBudgetAlpha, icBug]
    norm_num

/-- A row-uniqueness Factor with two neighbors sharing column 0, whose
pairwise-slot incoming values are 3 and 7, zero dissimilarity, `damp = 0`. -/
def jfExample : FactorState :=
  ⟨NodeType.JF, 0, 0, 0, (fun _ _ => 0),
    [⟨0, 0, [0, 3, 0]⟩, ⟨1, 0, [0, 7, 0]⟩], [0, 0], [0, 0], [0, 0]⟩

/-- C3: for a row-uniqueness (`'JF'`) Factor with at least 2 neighbors,
`Factor.message` snapshots `prev_out_msgs` and writes, for every target
index `i`, `damp * prev_out_msgs[i] + (1 - damp) * -(max of eta[k] over all
k != i)`, where `eta[k] = neighbors[k].in_msgs[1] - dissimilarity[k, j]`
and `j` is the column index of `neighbors[0]`; on `jfExample` the result is
`[-7, -3]`. -/
theorem row_uniqueness_message :
    (∀ (nid : Nat) (damp reg : ℚ) (dis : Nat → Nat → ℚ) (v0 v1 : VarView)
        (rest : List VarView) (inm outm prevm : List ℚ),
      Factor.message
          ⟨NodeType.JF, nid, damp, reg, dis, v0 :: v1 :: rest, inm, outm, prevm⟩ =
        some ⟨NodeType.JF, nid, damp, reg, dis, v0 :: v1 :: rest, inm,
          setLoop
            (fun i => damp * outm.getD i 0 +
              (1 - damp) * (-(looMax (v0 :: v1 :: rest).length i
                (etaF ⟨NodeType.JF, nid, damp, reg, dis, v0 :: v1 :: rest, inm,
                  outm, prevm⟩))))
            (v0 :: v1 :: rest).length outm,
          outm⟩) ∧
    ((Factor.message jfExample).map (fun t => t.out_msgs) = some [-7, -3]) := by
  constructor
  · intro nid damp reg dis v0 v1 rest inm outm prevm
    have h2 : 2 ≤ (v0 :: v1 :: rest).length := by
      simp only [List.length_cons]
      omega
    simp only [Factor.message]
    rw [if_neg (by simp only [List.length_cons]; omega)]
    refine congrArg some ?_
    congr 1
    apply setLoop_congr
    intro i hi
    rw [eraseIdx_max?_eq_looMax _ i h2, Option.getD_some]
    rfl
  · simp [Factor.message, jfExample, setLoop, List.range_succ, List.max?]

/-- C5: with `damp = 1` the damped update `damp * prev + (1 - damp) * new`
returns exactly the snapshotted previous `out_msgs`, so `out_msgs` after any
`message()` call equals the `prev_out_msgs` snapshot — the `out_msgs` held
before the call — for the Variable update and for every Factor role whose
call produces a value. -/
theorem damp_one_no_update :
    (∀ (t : NodeType) (nid : Nat) (nbrs : List Nat) (inm outm prevm : List ℚ),
      (Variable.message ⟨t, nid, 1, nbrs, inm, outm, prevm⟩).out_msgs = outm ∧
      (Variable.message ⟨t, nid, 1, nbrs, inm, outm, prevm⟩).out_msgs =
        (Variable.message ⟨t, nid, 1, nbrs, inm, outm, prevm⟩).prev_out_msgs) ∧
    (∀ s s' : FactorState, s.damp = 1 → Factor.message s = some s' →
      s'.out_msgs = s.out_msgs ∧ s'.out_msgs = s'.prev_out_msgs) := by
  constructor
  · intro t nid nbrs inm outm prevm
    have h : (Variable.message ⟨t, nid, 1, nbrs, inm, outm, prevm⟩).out_msgs = outm := by
      simp only [Variable.message]
      exact setLoop_damp_one _ _ _
    exact ⟨h, h⟩
  · intro s s' hd hmsg
    obtain ⟨out', rfl, hlen, hone⟩ := factor_message_some s s' hmsg
    simp [hone hd]

/-- A column-budget Factor with `damp = 1`, used to witness the damping
identity on a Factor role. -/
def dampOneEx : FactorState :=
  ⟨NodeType.IC, 0, 1, 2, (fun _ _ => 0),
    [⟨0, 0, [0, 0, 5]⟩, ⟨0, 1, [0, 0, 7]⟩], [0, 0], [4, 6], [0, 0]⟩

/-- The state `Factor.message dampOneEx` produces: only the snapshot
changes. -/
def dampOneExRes : FactorState := { dampOneEx with prev_out_msgs := [4, 6] }

theorem damp_one_no_update_witness :
    dampOneExRes.out_msgs = dampOneEx.out_msgs ∧
    dampOneExRes.out_msgs = dampOneExRes.prev_out_msgs := by
  have hmsg : Factor.message dampOneEx = some dampOneExRes := by
    simp [Factor.message, dampOneEx, dampOneExRes, setLoop, List.range_succ]
  exact damp_one_no_update.2 dampOneEx dampOneExRes rfl hmsg

/-- C6: `checkConvergence` returns `true` iff every edge index `i` has
`|out_msgs[i] - prev_out_msgs[i]| <= epsilon` (`epsilon = 1e-4`); it is
`true` for a node with zero edges, `true` whenever `out_msgs` equals
`prev_out_msgs` (in particular for freshly constructed nodes, whose message
slots are all `0`), and `true` for a node straight out of `Node.__init__`. -/
theorem checkConvergence_spec :
    (∀ s : NodeState, checkConvergence s = true ↔
      ∀ i, i < s.out_msgs.length →
        |s.out_msgs.getD i 0 - s.prev_out_msgs.getD i 0| ≤ epsilon) ∧
    (∀ s : NodeState, s.out_msgs = [] → checkConvergence s = true) ∧
    (∀ s : NodeState, s.out_msgs = s.prev_out_msgs → checkConvergence s = true) ∧
    (∀ (t : NodeType) (nid : Nat) (damp : ℚ),
      checkConvergence (Node.init t nid damp) = true) := by
  have hiff : ∀ s : NodeState, checkConvergence s = true ↔
      ∀ i, i < s.out_msgs.length →
        |s.out_msgs.getD i 0 - s.prev_out_msgs.getD i 0| ≤ epsilon := by
    intro s
    simp [checkConvergence, List.all_eq_true, List.mem_range, not_lt]
  refine ⟨hiff, ?_, ?_, fun t nid damp => rfl⟩
  · intro s h
    rw [hiff]
    intro i hi
    rw [h] at hi
    simp at hi
  · intro s h
    rw [hiff]
    intro i hi
    rw [h, sub_self, abs_zero]
    norm_num [epsilon]

theorem checkConvergence_spec_witness :
    checkConvergence ⟨NodeType.X, 5, 0, [], [], [], []⟩ = true :=
  checkConvergence_spec.2.1 ⟨NodeType.X, 5, 0, [], [], [], []⟩ rfl

/-- C7: `receiveMsg` fails (models the `ValueError` from `list.index`,
raised before any state is written) exactly when the sender is not in the
neighbor list; otherwise it returns the node with only the `in_msgs` slot at
the sender's (first) index overwritten — every other `in_msgs` slot and
every other field is unchanged. -/
theorem receiveMsg_spec :
    (∀ (s : NodeState) (sender : Nat) (msg : ℚ),
      receiveMsg s sender msg = none ↔ sender ∉ s.neighbors) ∧
    (∀ (s : NodeState) (sender : Nat) (msg : ℚ) (i : Nat),
      indexOfNode sender s.neighbors = some i →
      receiveMsg s sender msg = some { s with in_msgs := s.in_msgs.set i msg } ∧
      s.neighbors[i]? = some sender ∧
      (∀ j, j < i → s.neighbors[j]? ≠ some sender) ∧
      (∀ j, j ≠ i → (s.in_msgs.set i msg)[j]? = s.in_msgs[j]?) ∧
      (i < s.in_msgs.length → (s.in_msgs.set i msg)[i]? = some msg)) := by
  constructor
  · intro s sender msg
    rcases h : indexOfNode sender s.neighbors with _ | i
    · simp only [receiveMsg, h]
      simpa using (indexOfNode_eq_none_iff sender s.neighbors).1 h
    · simp only [receiveMsg, h]
      have hmem : sender ∈ s.neighbors :=
        List.getElem?_mem (indexOfNode_some sender s.neighbors i h).1
      simp [hmem]
  · intro s sender msg i h
    refine ⟨by simp only [receiveMsg, h], (indexOfNode_some sender s.neighbors i h).1,
      (indexOfNode_some sender s.neighbors i h).2, ?_, ?_⟩
    · intro j hj
      rw [List.getElem?_set, if_neg (fun hc => hj hc.symm)]
    · intro hi
      rw [List.getElem?_set, if_pos rfl, if_pos hi]

/-- A node with neighbors `[3, 7, 9]`, used to witness `receiveMsg`. -/
def rcvEx : NodeState := ⟨NodeType.X, 0, 0, [3, 7, 9], [0, 0, 0], [0, 0, 0], [0, 0, 0]⟩

theorem receiveMsg_spec_witness :
    receiveMsg rcvEx 7 5 = some { rcvEx with in_msgs := ([0, 0, 0] : List ℚ).set 1 5 } :=
  (receiveMsg_spec.2 rcvEx 7 5 1 rfl).1

/-- C8: `addNeighbors(A, B)` appends `B` to `A`'s neighbor list and `A` to
`B`'s, appending one zero-initialized slot to each endpoint's `in_msgs`,
`out_msgs` and `prev_out_msgs`; and every operation — `addNeighbors` (both
endpoints), `receiveMsg` (each delivery of a broadcast is such a call),
`Variable.message` and `Factor.message` — preserves the length invariant
`len(neighbors) == len(in_msgs) == len(out_msgs) == len(prev_out_msgs)`. -/
theorem addNeighbors_invariants :
    (∀ a b : NodeState,
      (addNeighbors a b).1.neighbors = a.neighbors ++ [b.nid] ∧
      (addNeighbors a b).2.neighbors = b.neighbors ++ [a.nid] ∧
      b.nid ∈ (addNeighbors a b).1.neighbors ∧
      a.nid ∈ (addNeighbors a b).2.neighbors ∧
      (addNeighbors a b).1.in_msgs = a.in_msgs ++ [0] ∧
      (addNeighbors a b).1.out_msgs = a.out_msgs ++ [0] ∧
      (addNeighbors a b).1.prev_out_msgs = a.prev_out_msgs ++ [0] ∧
      (addNeighbors a b).2.in_msgs = b.in_msgs ++ [0] ∧
      (addNeighbors a b).2.out_msgs = b.out_msgs ++ [0] ∧
      (addNeighbors a b).2.prev_out_msgs = b.prev_out_msgs ++ [0]) ∧
    (∀ a b : NodeState, nodeInv a → nodeInv b →
      nodeInv (addNeighbors a b).1 ∧ nodeInv (addNeighbors a b).2) ∧
    (∀ (s : NodeState) (sender : Nat) (msg : ℚ) (s' : NodeState),
      nodeInv s → receiveMsg s sender msg = some s' → nodeInv s') ∧
    (∀ s : NodeState, nodeInv s → nodeInv (Variable.message s)) ∧
    (∀ s s' : FactorState, factorInv s → Factor.message s = some s' → factorInv s') := by
  refine ⟨?_, ?_, ?_, ?_, ?_⟩
  · intro a b
    refine ⟨rfl, rfl, by simp [addNeighbors], by simp [addNeighbors],
      rfl, rfl, rfl, rfl, rfl, rfl⟩
  · intro a b ha hb
    obtain ⟨ha1, ha2, ha3⟩ := ha
    obtain ⟨hb1, hb2, hb3⟩ := hb
    constructor <;> refine ⟨?_, ?_, ?_⟩ <;> simp [addNeighbors] <;> omega
  · intro s sender msg s' hs h
    rcases hidx : indexOfNode sender s.neighbors with _ | i
    · simp only [receiveMsg, hidx] at h
      exact Option.noConfusion h
    · simp only [receiveMsg, hidx] at h
      obtain rfl := Option.some.inj h
      exact ⟨by rw [List.length_set]; exact hs.1, hs.2.1, hs.2.2⟩
  · intro s hs
    unfold nodeInv Variable.message
    simp only [setLoop_length]
    exact ⟨hs.1, hs.2.1, hs.2.1⟩
  · intro s s' hs h
    obtain ⟨out', rfl, hlen, _⟩ := factor_message_some s s' h
    exact ⟨hs.1, by rw [hlen]; exact hs.2.1, hs.2.1⟩

theorem addNeighbors_invariants_witness :
    nodeInv (addNeighbors (Node.init NodeType.X 0 0) (Node.init NodeType.IJ 1 0)).1 ∧
    nodeInv (addNeighbors (Node.init NodeType.X 0 0) (Node.init NodeType.IJ 1 0)).2 :=
  addNeighbors_invariants.2.1 _ _ ⟨rfl, rfl, rfl⟩ ⟨rfl, rfl, rfl⟩

/-- C10: every `message()` call leaves `neighbors`, `in_msgs` and `damp`
(and the other identity fields) unchanged, and stores into `prev_out_msgs`
the value `out_msgs` had before the call — the `out_msgs[:]` copy — so that
writing `out_msgs` slots afterwards never changes `prev_out_msgs`. -/
theorem message_frame :
    (∀ s : NodeState,
      (Variable.message s).nodetype = s.nodetype ∧
      (Variable.message s).nid = s.nid ∧
      (Variable.message s).damp = s.damp ∧
      (Variable.message s).neighbors = s.neighbors ∧
      (Variable.message s).in_msgs = s.in_msgs ∧
      (Variable.message s).prev_out_msgs = s.out_msgs) ∧
    (∀ s s' : FactorState, Factor.message s = some s' →
      s'.nodetype = s.nodetype ∧ s'.nid = s.nid ∧ s'.damp = s.damp ∧
      s'.reg = s.reg ∧ s'.neighbors = s.neighbors ∧ s'.in_msgs = s.in_msgs ∧
      s'.prev_out_msgs = s.out_msgs) ∧
    (∀ (s : NodeState) (i : Nat) (v : ℚ),
      ({ s with out_msgs := s.out_msgs.set i v } : NodeState).prev_out_msgs =
        s.prev_out_msgs) := by
  refine ⟨fun s => ⟨rfl, rfl, rfl, rfl, rfl, rfl⟩, ?_, fun s i v => rfl⟩
  intro s s' h
  obtain ⟨out', rfl, _, _⟩ := factor_message_some s s' h
  exact ⟨rfl, rfl, rfl, rfl, rfl, rfl, rfl⟩

theorem message_frame_witness :
    dampOneExRes.neighbors = dampOneEx.neighbors ∧
    dampOneExRes.prev_out_msgs = dampOneEx.out_msgs := by
  have hmsg : Factor.message dampOneEx = some dampOneExRes := by
    simp [Factor.message, dampOneEx, dampOneExRes, setLoop, List.range_succ]
  have h := message_frame.2.1 dampOneEx dampOneExRes hmsg
  exact ⟨h.2.2.2.2.1, h.2.2.2.2.2.2⟩
